import Mathlib

/-!
Verification of the pose-to-rig angle-mapping core of the
PoseEstimationPython repository.

The embedding models:
* the pure geometry helpers of `src/domain/metrics.py`
  (`angle2d`, `ang_norm`, `ang_diff`, `safe_pt`, `kp_metrics`);
* the static configuration tables of `src/domain/config.py`
  (`KP_THRES`, the COCO keypoint indices, `JOINT_MAP`, `AXIS_CFG`,
  `FIXED_OVERRIDES`);
* the rig controller of `src/infrastructure/rig/panda3d_rig.py`
  (`_fixed_hpr_for`, `_set_axis_angle_fixed`, `_apply_vec_to_joint`,
  `apply_pose`), with the actor's joint nodes abstracted to a state
  holding, per joint name, whether the joint was resolved
  (`controlled`), its bind-pose rotation (`base`) and its current
  rotation (`cur`);
* the per-frame orchestration of `src/application/usecases.py`
  (`ProcessFrameUseCase.__call__`), with the metrics store abstracted
  to a list of written records.

Python floats are modelled as exact rationals where the code only
compares and copies them (keypoint coordinates and confidences,
configuration constants), and as real numbers where trigonometry is
involved (angles).  `math.atan2` is the argument of a complex number;
Python's float `%` with a positive modulus is `a - b * ⌊a / b⌋`.
Fallible operations (Python list indexing, which raises `IndexError`
out of range) return `Option`.
-/

namespace PoseRig

/-! ## Geometry helpers (`src/domain/metrics.py`) -/

/-- Python's float `%` for a positive modulus, over the reals:
`a % b = a - b * ⌊a / b⌋`, which lies in `[0, b)` when `b > 0`. -/
noncomputable def pymod (a b : ℝ) : ℝ := a - b * ⌊a / b⌋

/-- `ang_norm` from `metrics.py`: `(angle + 180.0) % 360.0 - 180.0`. -/
noncomputable def ang_norm (a : ℝ) : ℝ := pymod (a + 180) 360 - 180

/-- `ang_diff` from `metrics.py`: `ang_norm(a - b)`. -/
noncomputable def ang_diff (a b : ℝ) : ℝ := ang_norm (a - b)

/-- `math.degrees`: radians to degrees. -/
noncomputable def degrees (r : ℝ) : ℝ := r * 180 / Real.pi

/-- `math.atan2 y x`, modelled as the principal argument of the complex
number `x + y·i`, which lies in `(-π, π]` with the same conventions. -/
noncomputable def atan2 (y x : ℝ) : ℝ := Complex.arg ⟨x, y⟩

/-- `angle2d` from `metrics.py`: the angle in degrees of the vector
`p1 → p2`, with the Y axis inverted (`dy = -dy`) before `atan2`. -/
noncomputable def angle2d (p1 p2 : ℚ × ℚ) : ℝ :=
  let dx : ℝ := (p2.1 : ℝ) - (p1.1 : ℝ)
  let dy : ℝ := (p2.2 : ℝ) - (p1.2 : ℝ)
  degrees (atan2 (-dy) dx)

/-! ## Keypoints and the confidence filter -/

/-- One keypoint `(x, y, conf)` as consumed by `apply_pose` and
`kp_metrics` (built from `Keypoint` dataclass fields). -/
abbrev Kp := ℚ × ℚ × ℚ

/-- A usable 2D point `(x, y)`. -/
abbrev Pt := ℚ × ℚ

/-- `KP_THRES` from `config.py` (`0.25`). -/
def KP_THRES : ℚ := 1/4

/-- `safe_pt` from `metrics.py`.  The outer `Option` models Python's
`IndexError` on `kps[idx]` (`none` = the call raises); the inner
`Option` is the function's own return value: `some (x, y)` when the
confidence meets the threshold, `none` otherwise. -/
def safe_pt (kps : List Kp) (idx : ℕ) (th : ℚ) : Option (Option Pt) :=
  match kps.get? idx with
  | none => none
  | some (x, y, c) => if th ≤ c then some (some (x, y)) else some none

/-- `kp_metrics` from `metrics.py`: mean confidence of the visible
keypoints (0 when none are visible), visible ratio over 17, and the
visible count. -/
def kp_metrics (person_kps : List Kp) (kp_th : ℚ) : ℚ × ℚ × ℕ :=
  let confs := (person_kps.filter (fun k => kp_th ≤ k.2.2)).map (fun k => k.2.2)
  let visible := confs.length
  let mean_conf := if confs.length = 0 then 0 else confs.sum / (visible : ℚ)
  (mean_conf, (visible : ℚ) / 17, visible)

/-! ## Configuration tables (`src/domain/config.py`) -/

/-- COCO index `LSHO = 5`. -/
def LSHO : ℕ := 5
/-- COCO index `RSHO = 6`. -/
def RSHO : ℕ := 6
/-- COCO index `LELB = 7`. -/
def LELB : ℕ := 7
/-- COCO index `RELB = 8`. -/
def RELB : ℕ := 8
/-- COCO index `LWR = 9`. -/
def LWR : ℕ := 9
/-- COCO index `RWR = 10`. -/
def RWR : ℕ := 10
/-- COCO index `LHIP = 11`. -/
def LHIP : ℕ := 11
/-- COCO index `RHIP = 12`. -/
def RHIP : ℕ := 12
/-- COCO index `LKNE = 13`. -/
def LKNE : ℕ := 13
/-- COCO index `RKNE = 14`. -/
def RKNE : ℕ := 14
/-- COCO index `LANK = 15`. -/
def LANK : ℕ := 15
/-- COCO index `RANK = 16`. -/
def RANK : ℕ := 16

/-- `JOINT_MAP` from `config.py`: semantic role to Mixamo joint name.
The wildcard branch is unreachable at the call sites in `apply_pose`,
which only look up keys present in the dict. -/
def JOINT_MAP (k : String) : String :=
  match k with
  | "L_UPPERARM" => "mixamorig:LeftArm"
  | "R_UPPERARM" => "mixamorig:RightArm"
  | "L_FOREARM" => "mixamorig:LeftForeArm"
  | "R_FOREARM" => "mixamorig:RightForeArm"
  | "L_HIP" => "mixamorig:LeftUpLeg"
  | "R_HIP" => "mixamorig:RightUpLeg"
  | "L_KNEE" => "mixamorig:LeftLeg"
  | "R_KNEE" => "mixamorig:RightLeg"
  | "L_ANKLE" => "mixamorig:LeftFoot"
  | "R_ANKLE" => "mixamorig:RightFoot"
  | "SPINE" => "mixamorig:Spine1"
  | "HIPS" => "mixamorig:Spine"
  | _ => ""

/-- `AXIS_CFG` from `config.py`: joint name to `(axis, sign, offset)`;
`none` for joints absent from the dict (call sites use `.get` with a
default). -/
def AXIS_CFG (j : String) : Option (String × ℚ × ℚ) :=
  match j with
  | "mixamorig:LeftArm" => some ("P", -1, 0)
  | "mixamorig:RightArm" => some ("P", 1, 180)
  | "mixamorig:LeftForeArm" => some ("P", -1, 0)
  | "mixamorig:RightForeArm" => some ("P", 1, 0)
  | "mixamorig:LeftUpLeg" => some ("R", -1, 100)
  | "mixamorig:RightUpLeg" => some ("R", -1, 100)
  | "mixamorig:LeftLeg" => some ("P", 0, 0)
  | "mixamorig:RightLeg" => some ("P", 0, 0)
  | "mixamorig:LeftFoot" => some ("P", 0, 0)
  | "mixamorig:RightFoot" => some ("P", 0, 0)
  | "mixamorig:Spine1" => some ("R", 1, 0)
  | "mixamorig:Spine" => some ("R", 1, 0)
  | _ => none

/-- An override table: per joint name, an optional pinned constant for
each of the H, P, R channels (`FIXED_OVERRIDES` dict entries, with
absent keys as `none`). -/
abbrev Overrides := String → Option ℝ × Option ℝ × Option ℝ

/-- `FIXED_OVERRIDES` from `config.py`: the shipped table is the empty
dict, so every lookup yields no pinned channel. -/
def FIXED_OVERRIDES : Overrides := fun _ => (none, none, none)

/-! ## Rig controller state (`src/infrastructure/rig/panda3d_rig.py`)

The Panda3D actor is abstracted to the state the controller observes
and mutates: per joint name, whether `controlJoint` resolved it
(`controlled`, the keys of `self.controlled`), the bind-pose rotation
captured at init (`base`, i.e. `self.base_hpr` with the dict's `.get`
default `(0,0,0)`), and the joint's current HPR rotation (`cur`, the
value last passed to `setHpr`). -/

/-- The rig controller's observable joint state. -/
structure Rig where
  controlled : String → Bool
  base : String → ℝ × ℝ × ℝ
  cur : String → ℝ × ℝ × ℝ

/-- `_fixed_hpr_for` (and `rig_utils.fixed_hpr`): the bind-pose HPR of
a joint with the fixed overrides applied channel-wise.  The override
table is the module-level `FIXED_OVERRIDES` constant, passed here
explicitly. -/
def fixed_hpr (ov : Overrides) (base : String → ℝ × ℝ × ℝ) (jname : String) :
    ℝ × ℝ × ℝ :=
  let b := base jname
  let o := ov jname
  ((o.1).getD b.1, (o.2.1).getD b.2.1, (o.2.2).getD b.2.2)

/-- `setHpr` value construction inside `_set_axis_angle_fixed` (and
`rig_utils.set_axis_angle`): the driven axis receives `angle`, the
other two channels the supplied fixed HPR.  Any axis other than
`"H"`/`"P"` falls to the `else` branch (`"R"`). -/
def axisWrite (axis : String) (angle : ℝ) (hpr : ℝ × ℝ × ℝ) : ℝ × ℝ × ℝ :=
  if axis = "H" then (angle, hpr.2.1, hpr.2.2)
  else if axis = "P" then (hpr.1, angle, hpr.2.2)
  else (hpr.1, hpr.2.1, angle)

/-- `_set_axis_angle_fixed` (and `rig_utils.set_axis_angle` together
with its caller's joint-presence check): no-op when the joint was not
resolved, otherwise overwrite the joint's HPR with the driven-axis
angle and the override-adjusted bind pose on the other channels. -/
def set_axis_angle (ov : Overrides) (rig : Rig) (jname axis : String)
    (angle : ℝ) : Rig :=
  if rig.controlled jname then
    { rig with
      cur := Function.update rig.cur jname
        (axisWrite axis angle (fixed_hpr ov rig.base jname)) }
  else rig

/-- `_apply_vec_to_joint`: skip when either point is unavailable,
otherwise look up `(axis, sign, offset)` in `AXIS_CFG` (default
`("H", +1, 0)`) and set `sign * (angle2d(p_a, p_b) * scale) + offset`
on the configured axis. -/
noncomputable def apply_vec_to_joint (ov : Overrides) (rig : Rig) (jname : String)
    (pa pb : Option Pt) (scale : ℚ) : Rig :=
  match pa, pb with
  | some a, some b =>
    let cfg := (AXIS_CFG jname).getD ("H", 1, 0)
    set_axis_angle ov rig jname cfg.1
      ((cfg.2.1 : ℝ) * (angle2d a b * (scale : ℝ)) + (cfg.2.2 : ℝ))
  | _, _ => rig

/-! ## `apply_pose` -/

/-- The twelve optional points read at the top of `apply_pose`
(`p_ls` … `p_ra`). -/
structure Pts where
  p_ls : Option Pt
  p_rs : Option Pt
  p_le : Option Pt
  p_re : Option Pt
  p_lw : Option Pt
  p_rw : Option Pt
  p_lh : Option Pt
  p_rh : Option Pt
  p_lk : Option Pt
  p_rk : Option Pt
  p_la : Option Pt
  p_ra : Option Pt

/-- The twelve `safe_pt` reads at the top of `apply_pose`, with the
`IndexError` of any read propagated (`none`). -/
def readPts (kps : List Kp) : Option Pts :=
  match safe_pt kps LSHO KP_THRES, safe_pt kps RSHO KP_THRES,
      safe_pt kps LELB KP_THRES, safe_pt kps RELB KP_THRES,
      safe_pt kps LWR KP_THRES, safe_pt kps RWR KP_THRES,
      safe_pt kps LHIP KP_THRES, safe_pt kps RHIP KP_THRES,
      safe_pt kps LKNE KP_THRES, safe_pt kps RKNE KP_THRES,
      safe_pt kps LANK KP_THRES, safe_pt kps RANK KP_THRES with
  | some ls, some rs, some le, some re, some lw, some rw, some lh,
      some rh, some lk, some rk, some la, some ra =>
    some ⟨ls, rs, le, re, lw, rw, lh, rh, lk, rk, la, ra⟩
  | _, _, _, _, _, _, _, _, _, _, _, _ => none

/-- The accumulated angles map (`out["angles"]`); keys are distinct per
run, so insertion order is irrelevant to lookups. -/
abbrev AMap := List (String × ℝ)

/-- Dict lookup in the angles map. -/
def getA : AMap → String → Option ℝ
  | [], _ => none
  | (k, v) :: rest, q => if q = k then some v else getA rest q

/-- One two-point branch of `apply_pose` (upper arms, hips, knees):
when both points are available, drive the joint from the vector and
record the raw `angle2d` value under `key`. -/
noncomputable def segStep (ov : Overrides) (st : Rig × AMap) (key : String)
    (pa pb : Option Pt) (jname : String) (scale : ℚ) : Rig × AMap :=
  match pa, pb with
  | some a, some b =>
    (apply_vec_to_joint ov st.1 jname (some a) (some b) scale,
      (key, angle2d a b) :: st.2)
  | _, _ => st

/-- One elbow branch of `apply_pose`: when shoulder, elbow and wrist
are all available, drive the forearm joint from the relative angle and
record it under `key`.  `AXIS_CFG` default here is `("P", +1, 0)`. -/
noncomputable def elbStep (ov : Overrides) (st : Rig × AMap) (key : String)
    (ps pe pw : Option Pt) (jname : String) : Rig × AMap :=
  match ps, pe, pw with
  | some s, some e, some w =>
    let up := angle2d s e
    let fo := angle2d e w
    let rel := ang_diff fo up
    let cfg := (AXIS_CFG jname).getD ("P", 1, 0)
    (set_axis_angle ov st.1 jname cfg.1 ((cfg.2.1 : ℝ) * rel + (cfg.2.2 : ℝ)),
      (key, rel) :: st.2)
  | _, _, _ => st

/-- The straight-line body of `apply_pose` after the twelve reads, in
source order: arms, elbows, hips, knees. -/
noncomputable def applyCore (rig : Rig) (P : Pts) : Rig × AMap :=
  let s1 := segStep FIXED_OVERRIDES (rig, []) "L_upperarm" P.p_ls P.p_le
    (JOINT_MAP "L_UPPERARM") 1
  let s2 := segStep FIXED_OVERRIDES s1 "R_upperarm" P.p_rs P.p_re
    (JOINT_MAP "R_UPPERARM") 1
  let s3 := elbStep FIXED_OVERRIDES s2 "L_elbow_rel" P.p_ls P.p_le P.p_lw
    (JOINT_MAP "L_FOREARM")
  let s4 := elbStep FIXED_OVERRIDES s3 "R_elbow_rel" P.p_rs P.p_re P.p_rw
    (JOINT_MAP "R_FOREARM")
  let s5 := segStep FIXED_OVERRIDES s4 "L_hip" P.p_lh P.p_lk
    (JOINT_MAP "L_HIP") (8/10)
  let s6 := segStep FIXED_OVERRIDES s5 "R_hip" P.p_rh P.p_rk
    (JOINT_MAP "R_HIP") (8/10)
  let s7 := segStep FIXED_OVERRIDES s6 "L_knee" P.p_lk P.p_la
    (JOINT_MAP "L_KNEE") (9/10)
  let s8 := segStep FIXED_OVERRIDES s7 "R_knee" P.p_rk P.p_ra
    (JOINT_MAP "R_KNEE") (9/10)
  s8

/-- `Panda3DRigController.apply_pose` on the keypoint triples of the
pose: `none` models an uncaught `IndexError` from the reads; otherwise
the updated joint state and the returned `angles` map. -/
noncomputable def apply_pose (rig : Rig) (kps : List Kp) : Option (Rig × AMap) :=
  (readPts kps).map (fun P => applyCore rig P)

/-! ## Frame-processing use case (`src/application/usecases.py`) -/

/-- The per-frame metrics record assembled by
`ProcessFrameUseCase.__call__` (timestamp and FPS are opaque inputs
here; the angles dict stays empty in this use case, which does not
invoke the rig controller). -/
structure FrameMetrics where
  ts : ℚ
  persons : ℕ
  fps : ℚ
  mean_kp_conf : ℚ
  visible_ratio : ℚ
  visible_count : ℕ
  pose_conf : Option ℚ
  angles : AMap

/-- `ProcessFrameUseCase.__call__` after the FPS update and the
detector call: build the zero-filled record, overwrite the visibility
fields from `kp_metrics` of the first person when one was detected,
write the record to the store (modelled as appending to the list of
written records) and return it. -/
def processFrame (store : List FrameMetrics) (poses : List (List Kp))
    (first_conf : Option ℚ) (fps ts : ℚ) :
    List FrameMetrics × FrameMetrics :=
  let base : FrameMetrics :=
    { ts := ts, persons := poses.length, fps := fps, mean_kp_conf := 0,
      visible_ratio := 0, visible_count := 0, pose_conf := first_conf,
      angles := [] }
  let m : FrameMetrics :=
    match poses with
    | [] => base
    | kps0 :: _ =>
      let r := kp_metrics kps0 KP_THRES
      { base with
        mean_kp_conf := r.1
        visible_ratio := r.2.1
        visible_count := r.2.2 }
  (store ++ [m], m)

/-! ## Basic facts about the geometry helpers -/

theorem pymod_nonneg (a b : ℝ) (hb : 0 < b) : 0 ≤ pymod a b := by
  have h := Int.floor_le (a / b)
  have : b * ⌊a / b⌋ ≤ b * (a / b) := by
    exact mul_le_mul_of_nonneg_left h (le_of_lt hb)
  rw [mul_div_cancel₀ a (ne_of_gt hb)] at this
  simpa [pymod] using this

theorem pymod_lt (a b : ℝ) (hb : 0 < b) : pymod a b < b := by
  have h := Int.lt_floor_add_one (a / b)
  have : b * (a / b) < b * (⌊a / b⌋ + 1) := by
    exact mul_lt_mul_of_pos_left h hb
  rw [mul_div_cancel₀ a (ne_of_gt hb)] at this
  have : a - b * ⌊a / b⌋ < b := by nlinarith
  simpa [pymod] using this

/-- `ang_norm` as a closed form used for algebraic reasoning. -/
theorem ang_norm_eq (a : ℝ) : ang_norm a = a - 360 * ⌊(a + 180) / 360⌋ := by
  simp [ang_norm, pymod]
  ring

/-- `ang_norm` is invariant under shifting by integer multiples of 360. -/
theorem ang_norm_add_int_mul (a : ℝ) (k : ℤ) :
    ang_norm (a + 360 * k) = ang_norm a := by
  rw [ang_norm_eq, ang_norm_eq]
  have : (a + 360 * k + 180) / 360 = (a + 180) / 360 + k := by
    field_simp
    ring
  rw [this, Int.floor_add_int]
  push_cast
  ring

/-! ## Concrete values of `angle2d` -/

theorem mk_eq_one : (⟨1, 0⟩ : ℂ) = 1 := by
  refine Complex.ext ?_ ?_ <;> norm_num

theorem mk_eq_I : (⟨0, 1⟩ : ℂ) = Complex.I := by
  refine Complex.ext ?_ ?_ <;> norm_num

theorem mk_eq_neg_I : (⟨0, -1⟩ : ℂ) = -Complex.I := by
  refine Complex.ext ?_ ?_ <;> norm_num

theorem angle2d_right : angle2d (0, 0) (1, 0) = 0 := by
  simp [angle2d, atan2, degrees, mk_eq_one, Complex.arg_one]

theorem angle2d_down : angle2d (0, 0) (0, 1) = -90 := by
  simp only [angle2d, atan2, degrees]
  norm_num [mk_eq_neg_I, Complex.arg_neg_I]
  field_simp
  ring

theorem angle2d_up : angle2d (0, 0) (0, -1) = 90 := by
  simp only [angle2d, atan2, degrees]
  norm_num [mk_eq_I, Complex.arg_I]
  field_simp
  ring

/-! ## Claims about the geometry helpers -/

/-- C4 (counterexample): the claim asserts `ang_norm a ∈ (−180, 180]`
for every `a`; at `a = 180` the code returns `−180`, which the claimed
interval excludes. -/
theorem claim_C4_counterexample :
    ang_norm (180 : ℝ) = -180 ∧
      ¬(-180 < ang_norm (180 : ℝ) ∧ ang_norm (180 : ℝ) ≤ 180) := by
  have h : ang_norm (180 : ℝ) = -180 := by
    rw [ang_norm_eq]
    norm_num
  exact ⟨h, by rw [h]; norm_num⟩

/-- C4 (amended): `ang_norm` returns a value in the half-open interval
`[−180, 180)`: `−180` is a possible output and `+180` is excluded. -/
theorem claim_C4 (a : ℝ) : -180 ≤ ang_norm a ∧ ang_norm a < 180 := by
  have h1 := pymod_nonneg (a + 180) 360 (by norm_num)
  have h2 := pymod_lt (a + 180) 360 (by norm_num)
  constructor
  · simp only [ang_norm]; linarith
  · simp only [ang_norm]; linarith

/-- C5 (counterexample): the claim asserts
`angle2d((0,0),(0,1)) == 90`; the code returns `−90` there (the point
`(0,1)` is one unit down on screen, and the Y-flip sends it to `−90`). -/
theorem claim_C5_counterexample :
    angle2d (0, 0) (0, 1) = -90 ∧ angle2d (0, 0) (0, 1) ≠ 90 := by
  refine ⟨angle2d_down, ?_⟩
  rw [angle2d_down]
  norm_num

/-- C5 (amended): `angle2d` uses the Y-inverted on-screen convention:
`angle2d((0,0),(1,0)) == 0`, moving up on screen (decreasing y, point
`(0,−1)`) gives `+90`, and the point `(0,1)` (down on screen) gives
`−90`. -/
theorem claim_C5 :
    angle2d (0, 0) (1, 0) = 0 ∧ angle2d (0, 0) (0, -1) = 90 ∧
      angle2d (0, 0) (0, 1) = -90 :=
  ⟨angle2d_right, angle2d_up, angle2d_down⟩

/-- C6: for all angles `a`, `b`,
`ang_norm (ang_diff a b + b) = ang_norm a`, exactly, in the real-number
model of the floating-point code. -/
theorem claim_C6 (a b : ℝ) : ang_norm (ang_diff a b + b) = ang_norm a := by
  have h : ang_diff a b + b
      = a + 360 * ((-⌊(a - b + 180) / 360⌋ : ℤ) : ℝ) := by
    rw [ang_diff, ang_norm_eq]
    push_cast
    ring
  rw [h, ang_norm_add_int_mul]

/-! ## Behaviour of `safe_pt` -/

theorem safe_pt_of_lt (kps : List Kp) (i : ℕ) (th : ℚ) (h : i < kps.length) :
    ∃ o, safe_pt kps i th = some o := by
  have e : kps[i]? = some kps[i] := List.getElem?_eq_getElem h
  rcases hg : kps[i] with ⟨x, y, c⟩
  rw [hg] at e
  by_cases hc : th ≤ c
  · exact ⟨some (x, y), by simp [safe_pt, e, hc]⟩
  · exact ⟨none, by simp [safe_pt, e, hc]⟩

theorem safe_pt_of_ge (kps : List Kp) (i : ℕ) (th : ℚ)
    (h : kps.length ≤ i) : safe_pt kps i th = none := by
  have e : kps[i]? = none := by
    rw [List.getElem?_eq_none_iff]
    exact h
  simp [safe_pt, e]

/-- C7: for an in-range index, `safe_pt` never raises, returns `None`
exactly when the confidence is strictly below the threshold, and
otherwise returns exactly the keypoint's `(x, y)` pair. -/
theorem claim_C7 (kps : List Kp) (idx : ℕ) (th x y c : ℚ)
    (h : idx < kps.length) (hg : kps.get ⟨idx, h⟩ = (x, y, c)) :
    safe_pt kps idx th ≠ none ∧
      (safe_pt kps idx th = some none ↔ c < th) ∧
      (th ≤ c → safe_pt kps idx th = some (some (x, y))) := by
  have e : kps[idx]? = some (x, y, c) := by
    rw [List.getElem?_eq_getElem h, ← hg, List.get_eq_getElem]
  by_cases hc : th ≤ c
  · refine ⟨by simp [safe_pt, e, hc], ?_, fun _ => by simp [safe_pt, e, hc]⟩
    simp [safe_pt, e, hc, not_lt.mpr hc]
  · refine ⟨by simp [safe_pt, e, hc], ?_, fun hcc => absurd hcc hc⟩
    simp [safe_pt, e, hc, not_le.mp hc]

/-- C7 witness: concrete call on a one-keypoint list with confidence 1
and threshold 1/4. -/
theorem claim_C7_witness :
    safe_pt [((1 : ℚ), 2, 1)] 0 (1/4) ≠ none ∧
      (safe_pt [((1 : ℚ), 2, 1)] 0 (1/4) = some none ↔ (1 : ℚ) < 1/4) ∧
      ((1 : ℚ)/4 ≤ 1 →
        safe_pt [((1 : ℚ), 2, 1)] 0 (1/4) = some (some (1, 2))) :=
  claim_C7 [((1 : ℚ), 2, 1)] 0 (1/4) 1 2 1 (by norm_num) rfl

/-- C9: on a frame with zero detected poses the use case still builds
a record with `persons = 0` and zero-filled visibility fields, and
appends it to the store (the model is total: no exception path). -/
theorem claim_C9 (store : List FrameMetrics) (fc : Option ℚ)
    (fps ts : ℚ) :
    ∃ m, processFrame store [] fc fps ts = (store ++ [m], m) ∧
      m.persons = 0 ∧ m.mean_kp_conf = 0 ∧ m.visible_ratio = 0 ∧
      m.visible_count = 0 := by
  exact ⟨_, rfl, rfl, rfl, rfl, rfl⟩

/-! ## In-bounds behaviour of the reads in `apply_pose` -/

theorem readPts_eq_none (kps : List Kp) (h : kps.length < 17) :
    readPts kps = none := by
  have h16 : safe_pt kps RANK KP_THRES = none := by
    apply safe_pt_of_ge
    simpa [RANK] using Nat.le_of_lt_succ h
  unfold readPts
  split
  · rename_i heq
    rw [h16] at heq
    exact absurd heq (by simp)
  · rfl

theorem readPts_isSome (kps : List Kp) (h : 17 ≤ kps.length) :
    ∃ P, readPts kps = some P := by
  obtain ⟨o1, e1⟩ := safe_pt_of_lt kps LSHO KP_THRES
    (by simp [LSHO]; omega)
  obtain ⟨o2, e2⟩ := safe_pt_of_lt kps RSHO KP_THRES
    (by simp [RSHO]; omega)
  obtain ⟨o3, e3⟩ := safe_pt_of_lt kps LELB KP_THRES
    (by simp [LELB]; omega)
  obtain ⟨o4, e4⟩ := safe_pt_of_lt kps RELB KP_THRES
    (by simp [RELB]; omega)
  obtain ⟨o5, e5⟩ := safe_pt_of_lt kps LWR KP_THRES
    (by simp [LWR]; omega)
  obtain ⟨o6, e6⟩ := safe_pt_of_lt kps RWR KP_THRES
    (by simp [RWR]; omega)
  obtain ⟨o7, e7⟩ := safe_pt_of_lt kps LHIP KP_THRES
    (by simp [LHIP]; omega)
  obtain ⟨o8, e8⟩ := safe_pt_of_lt kps RHIP KP_THRES
    (by simp [RHIP]; omega)
  obtain ⟨o9, e9⟩ := safe_pt_of_lt kps LKNE KP_THRES
    (by simp [LKNE]; omega)
  obtain ⟨o10, e10⟩ := safe_pt_of_lt kps RKNE KP_THRES
    (by simp [RKNE]; omega)
  obtain ⟨o11, e11⟩ := safe_pt_of_lt kps LANK KP_THRES
    (by simp [LANK]; omega)
  obtain ⟨o12, e12⟩ := safe_pt_of_lt kps RANK KP_THRES
    (by simp [RANK]; omega)
  refine ⟨⟨o1, o2, o3, o4, o5, o6, o7, o8, o9, o10, o11, o12⟩, ?_⟩
  unfold readPts
  rw [e1, e2, e3, e4, e5, e6, e7, e8, e9, e10, e11, e12]

/-- C10: `apply_pose` reads all twelve limb keypoints up-front through
`safe_pt`, so it raises exactly when the keypoint list has fewer than
17 entries, independently of every confidence value; with 17 or more
entries every access is in bounds and the call returns. -/
theorem claim_C10 (rig : Rig) (kps : List Kp) :
    (apply_pose rig kps).isSome ↔ 17 ≤ kps.length := by
  constructor
  · intro h
    by_contra hlen
    rw [apply_pose, readPts_eq_none kps (by omega)] at h
    simp at h
  · intro h
    obtain ⟨P, hP⟩ := readPts_isSome kps h
    rw [apply_pose, hP]
    rfl

/-! ## Frame lemmas: each branch of `apply_pose` touches only its own
joint and its own angles key -/

theorem controlled_set_axis (ov : Overrides) (rig : Rig) (j a : String)
    (v : ℝ) : (set_axis_angle ov rig j a v).controlled = rig.controlled := by
  unfold set_axis_angle
  split <;> rfl

theorem base_set_axis (ov : Overrides) (rig : Rig) (j a : String) (v : ℝ) :
    (set_axis_angle ov rig j a v).base = rig.base := by
  unfold set_axis_angle
  split <;> rfl

theorem cur_set_axis_ne {ov : Overrides} {rig : Rig} {j a : String} {v : ℝ}
    {q : String} (h : q ≠ j) :
    (set_axis_angle ov rig j a v).cur q = rig.cur q := by
  unfold set_axis_angle
  split
  · simp [Function.update_noteq h]
  · rfl

theorem cur_set_axis_self {ov : Overrides} {rig : Rig} {j a : String} {v : ℝ}
    (h : rig.controlled j = true) :
    (set_axis_angle ov rig j a v).cur j
      = axisWrite a v (fixed_hpr ov rig.base j) := by
  unfold set_axis_angle
  rw [h]
  simp

theorem controlled_apply_vec (ov : Overrides) (rig : Rig) (j : String)
    (pa pb : Option Pt) (sc : ℚ) :
    (apply_vec_to_joint ov rig j pa pb sc).controlled = rig.controlled := by
  rcases pa with _ | a <;> rcases pb with _ | b <;>
    simp [apply_vec_to_joint, controlled_set_axis]

theorem base_apply_vec (ov : Overrides) (rig : Rig) (j : String)
    (pa pb : Option Pt) (sc : ℚ) :
    (apply_vec_to_joint ov rig j pa pb sc).base = rig.base := by
  rcases pa with _ | a <;> rcases pb with _ | b <;>
    simp [apply_vec_to_joint, base_set_axis]

theorem cur_apply_vec_ne {ov : Overrides} {rig : Rig} {j : String}
    {pa pb : Option Pt} {sc : ℚ} {q : String} (h : q ≠ j) :
    (apply_vec_to_joint ov rig j pa pb sc).cur q = rig.cur q := by
  rcases pa with _ | a <;> rcases pb with _ | b <;>
    simp [apply_vec_to_joint, cur_set_axis_ne h]

/-- The value a two-point write leaves on its own joint depends only on
the joint's resolution flag, bind pose and previous rotation. -/
theorem apply_vec_cur_congr (ov : Overrides) {r1 r2 : Rig} (j : String)
    (pa pb : Option Pt) (sc : ℚ)
    (hc : r1.controlled j = r2.controlled j) (hb : r1.base j = r2.base j)
    (hq : r1.cur j = r2.cur j) :
    (apply_vec_to_joint ov r1 j pa pb sc).cur j
      = (apply_vec_to_joint ov r2 j pa pb sc).cur j := by
  rcases pa with _ | a <;> rcases pb with _ | b <;>
    simp only [apply_vec_to_joint, hq]
  unfold set_axis_angle
  rw [hc]
  by_cases h2 : r2.controlled j = true
  · simp [h2, fixed_hpr, hb]
  · simp [Bool.not_eq_true] at h2
    simp [h2, hq]

/-- Same congruence for the direct elbow write. -/
theorem set_axis_cur_congr (ov : Overrides) {r1 r2 : Rig} (j a : String)
    (v : ℝ) (hc : r1.controlled j = r2.controlled j)
    (hb : r1.base j = r2.base j) (hq : r1.cur j = r2.cur j) :
    (set_axis_angle ov r1 j a v).cur j = (set_axis_angle ov r2 j a v).cur j := by
  unfold set_axis_angle
  rw [hc]
  by_cases h2 : r2.controlled j = true
  · simp [h2, fixed_hpr, hb]
  · simp [Bool.not_eq_true] at h2
    simp [h2, hq]

theorem segStep_controlled (ov : Overrides) (st : Rig × AMap) (key : String)
    (pa pb : Option Pt) (j : String) (sc : ℚ) :
    (segStep ov st key pa pb j sc).1.controlled = st.1.controlled := by
  rcases pa with _ | a <;> rcases pb with _ | b <;>
    simp [segStep, controlled_apply_vec]

theorem segStep_base (ov : Overrides) (st : Rig × AMap) (key : String)
    (pa pb : Option Pt) (j : String) (sc : ℚ) :
    (segStep ov st key pa pb j sc).1.base = st.1.base := by
  rcases pa with _ | a <;> rcases pb with _ | b <;>
    simp [segStep, base_apply_vec]

theorem segStep_cur_ne {ov : Overrides} {st : Rig × AMap} {key : String}
    {pa pb : Option Pt} {j : String} {sc : ℚ} {q : String} (h : q ≠ j) :
    (segStep ov st key pa pb j sc).1.cur q = st.1.cur q := by
  rcases pa with _ | a <;> rcases pb with _ | b <;>
    simp [segStep, cur_apply_vec_ne h]

theorem segStep_getA_ne {ov : Overrides} {st : Rig × AMap} {key : String}
    {pa pb : Option Pt} {j : String} {sc : ℚ} {q : String} (h : q ≠ key) :
    getA (segStep ov st key pa pb j sc).2 q = getA st.2 q := by
  rcases pa with _ | a <;> rcases pb with _ | b <;>
    simp [segStep, getA, h]

theorem elbStep_controlled (ov : Overrides) (st : Rig × AMap) (key : String)
    (ps pe pw : Option Pt) (j : String) :
    (elbStep ov st key ps pe pw j).1.controlled = st.1.controlled := by
  rcases ps with _ | s <;> rcases pe with _ | e <;> rcases pw with _ | w <;>
    simp [elbStep, controlled_set_axis]

theorem elbStep_base (ov : Overrides) (st : Rig × AMap) (key : String)
    (ps pe pw : Option Pt) (j : String) :
    (elbStep ov st key ps pe pw j).1.base = st.1.base := by
  rcases ps with _ | s <;> rcases pe with _ | e <;> rcases pw with _ | w <;>
    simp [elbStep, base_set_axis]

theorem elbStep_cur_ne {ov : Overrides} {st : Rig × AMap} {key : String}
    {ps pe pw : Option Pt} {j : String} {q : String} (h : q ≠ j) :
    (elbStep ov st key ps pe pw j).1.cur q = st.1.cur q := by
  rcases ps with _ | s <;> rcases pe with _ | e <;> rcases pw with _ | w <;>
    simp [elbStep, cur_set_axis_ne h]

theorem elbStep_getA_ne {ov : Overrides} {st : Rig × AMap} {key : String}
    {ps pe pw : Option Pt} {j : String} {q : String} (h : q ≠ key) :
    getA (elbStep ov st key ps pe pw j).2 q = getA st.2 q := by
  rcases ps with _ | s <;> rcases pe with _ | e <;> rcases pw with _ | w <;>
    simp [elbStep, getA, h]

/-! ## Step equations and congruences -/

theorem segStep_none_left (ov : Overrides) (st : Rig × AMap) (key : String)
    (pb : Option Pt) (j : String) (sc : ℚ) :
    segStep ov st key none pb j sc = st := by
  rcases pb with _ | b <;> rfl

theorem segStep_none_right (ov : Overrides) (st : Rig × AMap) (key : String)
    (pa : Option Pt) (j : String) (sc : ℚ) :
    segStep ov st key pa none j sc = st := by
  rcases pa with _ | a <;> rfl

theorem segStep_some (ov : Overrides) (st : Rig × AMap) (key : String)
    (a b : Pt) (j : String) (sc : ℚ) :
    segStep ov st key (some a) (some b) j sc
      = (apply_vec_to_joint ov st.1 j (some a) (some b) sc,
          (key, angle2d a b) :: st.2) := rfl

theorem elbStep_none_s (ov : Overrides) (st : Rig × AMap) (key : String)
    (pe pw : Option Pt) (j : String) :
    elbStep ov st key none pe pw j = st := by
  rcases pe with _ | e <;> rcases pw with _ | w <;> rfl

theorem elbStep_none_e (ov : Overrides) (st : Rig × AMap) (key : String)
    (ps pw : Option Pt) (j : String) :
    elbStep ov st key ps none pw j = st := by
  rcases ps with _ | s <;> rcases pw with _ | w <;> rfl

theorem elbStep_none_w (ov : Overrides) (st : Rig × AMap) (key : String)
    (ps pe : Option Pt) (j : String) :
    elbStep ov st key ps pe none j = st := by
  rcases ps with _ | s <;> rcases pe with _ | e <;> rfl

theorem elbStep_some (ov : Overrides) (st : Rig × AMap) (key : String)
    (s e w : Pt) (j : String) :
    elbStep ov st key (some s) (some e) (some w) j
      = (set_axis_angle ov st.1 j ((AXIS_CFG j).getD ("P", 1, 0)).1
          ((((AXIS_CFG j).getD ("P", 1, 0)).2.1 : ℝ) *
              ang_diff (angle2d e w) (angle2d s e) +
            (((AXIS_CFG j).getD ("P", 1, 0)).2.2 : ℝ)),
          (key, ang_diff (angle2d e w) (angle2d s e)) :: st.2) := rfl

theorem segStep_cur_congr {ov : Overrides} {st1 st2 : Rig × AMap}
    {key : String} {pa pb : Option Pt} {j : String} {sc : ℚ}
    (hc : st1.1.controlled j = st2.1.controlled j)
    (hb : st1.1.base j = st2.1.base j) (hq : st1.1.cur j = st2.1.cur j) :
    (segStep ov st1 key pa pb j sc).1.cur j
      = (segStep ov st2 key pa pb j sc).1.cur j := by
  rcases pa with _ | a
  · rw [segStep_none_left, segStep_none_left]
    exact hq
  · rcases pb with _ | b
    · rw [segStep_none_right, segStep_none_right]
      exact hq
    · rw [segStep_some, segStep_some]
      exact apply_vec_cur_congr ov j (some a) (some b) sc hc hb hq

theorem elbStep_cur_congr {ov : Overrides} {st1 st2 : Rig × AMap}
    {key : String} {ps pe pw : Option Pt} {j : String}
    (hc : st1.1.controlled j = st2.1.controlled j)
    (hb : st1.1.base j = st2.1.base j) (hq : st1.1.cur j = st2.1.cur j) :
    (elbStep ov st1 key ps pe pw j).1.cur j
      = (elbStep ov st2 key ps pe pw j).1.cur j := by
  rcases ps with _ | s
  · rw [elbStep_none_s, elbStep_none_s]
    exact hq
  · rcases pe with _ | e
    · rw [elbStep_none_e, elbStep_none_e]
      exact hq
    · rcases pw with _ | w
      · rw [elbStep_none_w, elbStep_none_w]
        exact hq
      · rw [elbStep_some, elbStep_some]
        exact set_axis_cur_congr ov j _ _ hc hb hq

/-! ## Per-branch views of the final state of `apply_pose` -/

/-- The final angles map of `apply_pose` at key `"L_upperarm"`:
present with the raw `angle2d` of its two points exactly when both are
available. -/
theorem applyCore_getA_L_upperarm (rig : Rig) (P : Pts) :
    getA (applyCore rig P).2 "L_upperarm"
      = match P.p_ls, P.p_le with
        | some a, some b => some (angle2d a b)
        | _, _ => none := by
  obtain ⟨ls, rs, le, re, lw, rw2, lh, rh, lk, rk, la, ra⟩ := P
  simp only [applyCore, JOINT_MAP]
  rw [segStep_getA_ne (by decide), segStep_getA_ne (by decide),
      segStep_getA_ne (by decide), segStep_getA_ne (by decide),
      elbStep_getA_ne (by decide), elbStep_getA_ne (by decide),
      segStep_getA_ne (by decide)]
  rcases ls with _ | a
  · rw [segStep_none_left]
    rcases le with _ | b <;> rfl
  · rcases le with _ | b
    · rw [segStep_none_right]
      rfl
    · rw [segStep_some]
      simp [getA]

/-- The final angles map of `apply_pose` at key `"R_upperarm"`:
present with the raw `angle2d` of its two points exactly when both are
available. -/
theorem applyCore_getA_R_upperarm (rig : Rig) (P : Pts) :
    getA (applyCore rig P).2 "R_upperarm"
      = match P.p_rs, P.p_re with
        | some a, some b => some (angle2d a b)
        | _, _ => none := by
  obtain ⟨ls, rs, le, re, lw, rw2, lh, rh, lk, rk, la, ra⟩ := P
  simp only [applyCore, JOINT_MAP]
  rw [segStep_getA_ne (by decide), segStep_getA_ne (by decide),
      segStep_getA_ne (by decide), segStep_getA_ne (by decide),
      elbStep_getA_ne (by decide), elbStep_getA_ne (by decide)]
  rcases rs with _ | a
  · rw [segStep_none_left, segStep_getA_ne (by decide)]
    rcases re with _ | b <;> rfl
  · rcases re with _ | b
    · rw [segStep_none_right, segStep_getA_ne (by decide)]
      rfl
    · rw [segStep_some]
      simp [getA]

/-- The final angles map of `apply_pose` at key `"L_elbow_rel"`:
present with the relative elbow angle exactly when shoulder, elbow and
wrist are all available. -/
theorem applyCore_getA_L_elbow (rig : Rig) (P : Pts) :
    getA (applyCore rig P).2 "L_elbow_rel"
      = match P.p_ls, P.p_le, P.p_lw with
        | some s, some e, some w =>
          some (ang_diff (angle2d e w) (angle2d s e))
        | _, _, _ => none := by
  obtain ⟨ls, rs, le, re, lw, rw2, lh, rh, lk, rk, la, ra⟩ := P
  simp only [applyCore, JOINT_MAP]
  rw [segStep_getA_ne (by decide), segStep_getA_ne (by decide),
      segStep_getA_ne (by decide), segStep_getA_ne (by decide),
      elbStep_getA_ne (by decide)]
  rcases ls with _ | s
  · rw [elbStep_none_s, segStep_getA_ne (by decide),
        segStep_getA_ne (by decide)]
    rcases le with _ | e <;> rcases lw with _ | w <;> rfl
  · rcases le with _ | e
    · rw [elbStep_none_e, segStep_getA_ne (by decide),
          segStep_getA_ne (by decide)]
      rcases lw with _ | w <;> rfl
    · rcases lw with _ | w
      · rw [elbStep_none_w, segStep_getA_ne (by decide),
            segStep_getA_ne (by decide)]
        rfl
      · rw [elbStep_some]
        simp [getA]

/-- The final angles map of `apply_pose` at key `"R_elbow_rel"`:
present with the relative elbow angle exactly when shoulder, elbow and
wrist are all available. -/
theorem applyCore_getA_R_elbow (rig : Rig) (P : Pts) :
    getA (applyCore rig P).2 "R_elbow_rel"
      = match P.p_rs, P.p_re, P.p_rw with
        | some s, some e, some w =>
          some (ang_diff (angle2d e w) (angle2d s e))
        | _, _, _ => none := by
  obtain ⟨ls, rs, le, re, lw, rw2, lh, rh, lk, rk, la, ra⟩ := P
  simp only [applyCore, JOINT_MAP]
  rw [segStep_getA_ne (by decide), segStep_getA_ne (by decide),
      segStep_getA_ne (by decide), segStep_getA_ne (by decide)]
  rcases rs with _ | s
  · rw [elbStep_none_s, elbStep_getA_ne (by decide),
        segStep_getA_ne (by decide), segStep_getA_ne (by decide)]
    rcases re with _ | e <;> rcases rw2 with _ | w <;> rfl
  · rcases re with _ | e
    · rw [elbStep_none_e, elbStep_getA_ne (by decide),
          segStep_getA_ne (by decide), segStep_getA_ne (by decide)]
      rcases rw2 with _ | w <;> rfl
    · rcases rw2 with _ | w
      · rw [elbStep_none_w, elbStep_getA_ne (by decide),
            segStep_getA_ne (by decide), segStep_getA_ne (by decide)]
        rfl
      · rw [elbStep_some]
        simp [getA]

/-- The final angles map of `apply_pose` at key `"L_hip"`:
present with the raw `angle2d` of its two points exactly when both are
available. -/
theorem applyCore_getA_L_hip (rig : Rig) (P : Pts) :
    getA (applyCore rig P).2 "L_hip"
      = match P.p_lh, P.p_lk with
        | some a, some b => some (angle2d a b)
        | _, _ => none := by
  obtain ⟨ls, rs, le, re, lw, rw2, lh, rh, lk, rk, la, ra⟩ := P
  simp only [applyCore, JOINT_MAP]
  rw [segStep_getA_ne (by decide), segStep_getA_ne (by decide),
      segStep_getA_ne (by decide)]
  rcases lh with _ | a
  · rw [segStep_none_left, elbStep_getA_ne (by decide),
        elbStep_getA_ne (by decide), segStep_getA_ne (by decide),
        segStep_getA_ne (by decide)]
    rcases lk with _ | b <;> rfl
  · rcases lk with _ | b
    · rw [segStep_none_right, elbStep_getA_ne (by decide),
          elbStep_getA_ne (by decide), segStep_getA_ne (by decide),
          segStep_getA_ne (by decide)]
      rfl
    · rw [segStep_some]
      simp [getA]

/-- The final angles map of `apply_pose` at key `"R_hip"`:
present with the raw `angle2d` of its two points exactly when both are
available. -/
theorem applyCore_getA_R_hip (rig : Rig) (P : Pts) :
    getA (applyCore rig P).2 "R_hip"
      = match P.p_rh, P.p_rk with
        | some a, some b => some (angle2d a b)
        | _, _ => none := by
  obtain ⟨ls, rs, le, re, lw, rw2, lh, rh, lk, rk, la, ra⟩ := P
  simp only [applyCore, JOINT_MAP]
  rw [segStep_getA_ne (by decide), segStep_getA_ne (by decide)]
  rcases rh with _ | a
  · rw [segStep_none_left, segStep_getA_ne (by decide),
        elbStep_getA_ne (by decide), elbStep_getA_ne (by decide),
        segStep_getA_ne (by decide), segStep_getA_ne (by decide)]
    rcases rk with _ | b <;> rfl
  · rcases rk with _ | b
    · rw [segStep_none_right, segStep_getA_ne (by decide),
          elbStep_getA_ne (by decide), elbStep_getA_ne (by decide),
          segStep_getA_ne (by decide), segStep_getA_ne (by decide)]
      rfl
    · rw [segStep_some]
      simp [getA]

/-- The final angles map of `apply_pose` at key `"L_knee"`:
present with the raw `angle2d` of its two points exactly when both are
available. -/
theorem applyCore_getA_L_knee (rig : Rig) (P : Pts) :
    getA (applyCore rig P).2 "L_knee"
      = match P.p_lk, P.p_la with
        | some a, some b => some (angle2d a b)
        | _, _ => none := by
  obtain ⟨ls, rs, le, re, lw, rw2, lh, rh, lk, rk, la, ra⟩ := P
  simp only [applyCore, JOINT_MAP]
  rw [segStep_getA_ne (by decide)]
  rcases lk with _ | a
  · rw [segStep_none_left, segStep_getA_ne (by decide),
        segStep_getA_ne (by decide), elbStep_getA_ne (by decide),
        elbStep_getA_ne (by decide), segStep_getA_ne (by decide),
        segStep_getA_ne (by decide)]
    rcases la with _ | b <;> rfl
  · rcases la with _ | b
    · rw [segStep_none_right, segStep_getA_ne (by decide),
          segStep_getA_ne (by decide), elbStep_getA_ne (by decide),
          elbStep_getA_ne (by decide), segStep_getA_ne (by decide),
          segStep_getA_ne (by decide)]
      rfl
    · rw [segStep_some]
      simp [getA]

/-- The final angles map of `apply_pose` at key `"R_knee"`:
present with the raw `angle2d` of its two points exactly when both are
available. -/
theorem applyCore_getA_R_knee (rig : Rig) (P : Pts) :
    getA (applyCore rig P).2 "R_knee"
      = match P.p_rk, P.p_ra with
        | some a, some b => some (angle2d a b)
        | _, _ => none := by
  obtain ⟨ls, rs, le, re, lw, rw2, lh, rh, lk, rk, la, ra⟩ := P
  simp only [applyCore, JOINT_MAP]
  rcases rk with _ | a
  · rw [segStep_none_left, segStep_getA_ne (by decide),
        segStep_getA_ne (by decide), segStep_getA_ne (by decide),
        elbStep_getA_ne (by decide), elbStep_getA_ne (by decide),
        segStep_getA_ne (by decide), segStep_getA_ne (by decide)]
    rcases ra with _ | b <;> rfl
  · rcases ra with _ | b
    · rw [segStep_none_right, segStep_getA_ne (by decide),
          segStep_getA_ne (by decide), segStep_getA_ne (by decide),
          elbStep_getA_ne (by decide), elbStep_getA_ne (by decide),
          segStep_getA_ne (by decide), segStep_getA_ne (by decide)]
      rfl
    · rw [segStep_some]
      simp [getA]

/-- The final rotation of joint `mixamorig:LeftArm` after
`apply_pose` equals the one its own branch writes on the initial
state: no other branch touches this joint. -/
theorem applyCore_cur_LeftArm (rig : Rig) (P : Pts) :
    (applyCore rig P).1.cur "mixamorig:LeftArm"
      = (segStep FIXED_OVERRIDES (rig, []) "L_upperarm" P.p_ls P.p_le
          "mixamorig:LeftArm" 1).1.cur "mixamorig:LeftArm" := by
  obtain ⟨ls, rs, le, re, lw, rw2, lh, rh, lk, rk, la, ra⟩ := P
  simp only [applyCore, JOINT_MAP]
  rw [segStep_cur_ne (by decide), segStep_cur_ne (by decide),
      segStep_cur_ne (by decide), segStep_cur_ne (by decide),
      elbStep_cur_ne (by decide), elbStep_cur_ne (by decide),
      segStep_cur_ne (by decide)]

/-- The final rotation of joint `mixamorig:RightArm` after
`apply_pose` equals the one its own branch writes on the initial
state: no other branch touches this joint. -/
theorem applyCore_cur_RightArm (rig : Rig) (P : Pts) :
    (applyCore rig P).1.cur "mixamorig:RightArm"
      = (segStep FIXED_OVERRIDES (rig, []) "R_upperarm" P.p_rs P.p_re
          "mixamorig:RightArm" 1).1.cur "mixamorig:RightArm" := by
  obtain ⟨ls, rs, le, re, lw, rw2, lh, rh, lk, rk, la, ra⟩ := P
  simp only [applyCore, JOINT_MAP]
  rw [segStep_cur_ne (by decide), segStep_cur_ne (by decide),
      segStep_cur_ne (by decide), segStep_cur_ne (by decide),
      elbStep_cur_ne (by decide), elbStep_cur_ne (by decide)]
  apply segStep_cur_congr
  · simp [segStep_controlled, elbStep_controlled]
  · simp [segStep_base, elbStep_base]
  · rw [segStep_cur_ne (by decide)]

/-- The final rotation of joint `mixamorig:LeftForeArm` after
`apply_pose` equals the one its own elbow branch writes on the initial
state: no other branch touches this joint. -/
theorem applyCore_cur_LeftForeArm (rig : Rig) (P : Pts) :
    (applyCore rig P).1.cur "mixamorig:LeftForeArm"
      = (elbStep FIXED_OVERRIDES (rig, []) "L_elbow_rel" P.p_ls P.p_le P.p_lw
          "mixamorig:LeftForeArm").1.cur "mixamorig:LeftForeArm" := by
  obtain ⟨ls, rs, le, re, lw, rw2, lh, rh, lk, rk, la, ra⟩ := P
  simp only [applyCore, JOINT_MAP]
  rw [segStep_cur_ne (by decide), segStep_cur_ne (by decide),
      segStep_cur_ne (by decide), segStep_cur_ne (by decide),
      elbStep_cur_ne (by decide)]
  apply elbStep_cur_congr
  · simp [segStep_controlled, elbStep_controlled]
  · simp [segStep_base, elbStep_base]
  · rw [segStep_cur_ne (by decide), segStep_cur_ne (by decide)]

/-- The final rotation of joint `mixamorig:RightForeArm` after
`apply_pose` equals the one its own elbow branch writes on the initial
state: no other branch touches this joint. -/
theorem applyCore_cur_RightForeArm (rig : Rig) (P : Pts) :
    (applyCore rig P).1.cur "mixamorig:RightForeArm"
      = (elbStep FIXED_OVERRIDES (rig, []) "R_elbow_rel" P.p_rs P.p_re P.p_rw
          "mixamorig:RightForeArm").1.cur "mixamorig:RightForeArm" := by
  obtain ⟨ls, rs, le, re, lw, rw2, lh, rh, lk, rk, la, ra⟩ := P
  simp only [applyCore, JOINT_MAP]
  rw [segStep_cur_ne (by decide), segStep_cur_ne (by decide),
      segStep_cur_ne (by decide), segStep_cur_ne (by decide)]
  apply elbStep_cur_congr
  · simp [segStep_controlled, elbStep_controlled]
  · simp [segStep_base, elbStep_base]
  · rw [elbStep_cur_ne (by decide), segStep_cur_ne (by decide),
        segStep_cur_ne (by decide)]

/-- The final rotation of joint `mixamorig:LeftUpLeg` after
`apply_pose` equals the one its own branch writes on the initial
state: no other branch touches this joint. -/
theorem applyCore_cur_LeftUpLeg (rig : Rig) (P : Pts) :
    (applyCore rig P).1.cur "mixamorig:LeftUpLeg"
      = (segStep FIXED_OVERRIDES (rig, []) "L_hip" P.p_lh P.p_lk
          "mixamorig:LeftUpLeg" (8/10)).1.cur "mixamorig:LeftUpLeg" := by
  obtain ⟨ls, rs, le, re, lw, rw2, lh, rh, lk, rk, la, ra⟩ := P
  simp only [applyCore, JOINT_MAP]
  rw [segStep_cur_ne (by decide), segStep_cur_ne (by decide),
      segStep_cur_ne (by decide)]
  apply segStep_cur_congr
  · simp [segStep_controlled, elbStep_controlled]
  · simp [segStep_base, elbStep_base]
  · rw [elbStep_cur_ne (by decide), elbStep_cur_ne (by decide),
        segStep_cur_ne (by decide), segStep_cur_ne (by decide)]

/-- The final rotation of joint `mixamorig:RightUpLeg` after
`apply_pose` equals the one its own branch writes on the initial
state: no other branch touches this joint. -/
theorem applyCore_cur_RightUpLeg (rig : Rig) (P : Pts) :
    (applyCore rig P).1.cur "mixamorig:RightUpLeg"
      = (segStep FIXED_OVERRIDES (rig, []) "R_hip" P.p_rh P.p_rk
          "mixamorig:RightUpLeg" (8/10)).1.cur "mixamorig:RightUpLeg" := by
  obtain ⟨ls, rs, le, re, lw, rw2, lh, rh, lk, rk, la, ra⟩ := P
  simp only [applyCore, JOINT_MAP]
  rw [segStep_cur_ne (by decide), segStep_cur_ne (by decide)]
  apply segStep_cur_congr
  · simp [segStep_controlled, elbStep_controlled]
  · simp [segStep_base, elbStep_base]
  · rw [segStep_cur_ne (by decide), elbStep_cur_ne (by decide),
        elbStep_cur_ne (by decide), segStep_cur_ne (by decide),
        segStep_cur_ne (by decide)]

/-- The final rotation of joint `mixamorig:LeftLeg` after
`apply_pose` equals the one its own branch writes on the initial
state: no other branch touches this joint. -/
theorem applyCore_cur_LeftLeg (rig : Rig) (P : Pts) :
    (applyCore rig P).1.cur "mixamorig:LeftLeg"
      = (segStep FIXED_OVERRIDES (rig, []) "L_knee" P.p_lk P.p_la
          "mixamorig:LeftLeg" (9/10)).1.cur "mixamorig:LeftLeg" := by
  obtain ⟨ls, rs, le, re, lw, rw2, lh, rh, lk, rk, la, ra⟩ := P
  simp only [applyCore, JOINT_MAP]
  rw [segStep_cur_ne (by decide)]
  apply segStep_cur_congr
  · simp [segStep_controlled, elbStep_controlled]
  · simp [segStep_base, elbStep_base]
  · rw [segStep_cur_ne (by decide), segStep_cur_ne (by decide),
        elbStep_cur_ne (by decide), elbStep_cur_ne (by decide),
        segStep_cur_ne (by decide), segStep_cur_ne (by decide)]

/-- The final rotation of joint `mixamorig:RightLeg` after
`apply_pose` equals the one its own branch writes on the initial
state: no other branch touches this joint. -/
theorem applyCore_cur_RightLeg (rig : Rig) (P : Pts) :
    (applyCore rig P).1.cur "mixamorig:RightLeg"
      = (segStep FIXED_OVERRIDES (rig, []) "R_knee" P.p_rk P.p_ra
          "mixamorig:RightLeg" (9/10)).1.cur "mixamorig:RightLeg" := by
  obtain ⟨ls, rs, le, re, lw, rw2, lh, rh, lk, rk, la, ra⟩ := P
  simp only [applyCore, JOINT_MAP]
  apply segStep_cur_congr
  · simp [segStep_controlled, elbStep_controlled]
  · simp [segStep_base, elbStep_base]
  · rw [segStep_cur_ne (by decide), segStep_cur_ne (by decide),
        segStep_cur_ne (by decide), elbStep_cur_ne (by decide),
        elbStep_cur_ne (by decide), segStep_cur_ne (by decide),
        segStep_cur_ne (by decide)]


/-! ## The six two-point segments of `apply_pose` (claim statements) -/

/-- The six two-point segments of `apply_pose` (upper arms, hips,
knees), enumerating the literal branches of the source. -/
inductive Seg
  | LUp
  | RUp
  | LHip
  | RHip
  | LKnee
  | RKnee

/-- The angles-map key recorded by each two-point segment. -/
def segKey : Seg → String
  | Seg.LUp => "L_upperarm"
  | Seg.RUp => "R_upperarm"
  | Seg.LHip => "L_hip"
  | Seg.RHip => "R_hip"
  | Seg.LKnee => "L_knee"
  | Seg.RKnee => "R_knee"

/-- First endpoint (COCO index) of each two-point segment. -/
def segIA : Seg → ℕ
  | Seg.LUp => LSHO
  | Seg.RUp => RSHO
  | Seg.LHip => LHIP
  | Seg.RHip => RHIP
  | Seg.LKnee => LKNE
  | Seg.RKnee => RKNE

/-- Second endpoint (COCO index) of each two-point segment. -/
def segIB : Seg → ℕ
  | Seg.LUp => LELB
  | Seg.RUp => RELB
  | Seg.LHip => LKNE
  | Seg.RHip => RKNE
  | Seg.LKnee => LANK
  | Seg.RKnee => RANK

/-- Rig joint driven by each two-point segment (`JOINT_MAP` applied to
the branch's semantic key). -/
def segJoint : Seg → String
  | Seg.LUp => "mixamorig:LeftArm"
  | Seg.RUp => "mixamorig:RightArm"
  | Seg.LHip => "mixamorig:LeftUpLeg"
  | Seg.RHip => "mixamorig:RightUpLeg"
  | Seg.LKnee => "mixamorig:LeftLeg"
  | Seg.RKnee => "mixamorig:RightLeg"

/-- Scale factor passed by each two-point branch. -/
def segScale : Seg → ℚ
  | Seg.LUp => 1
  | Seg.RUp => 1
  | Seg.LHip => 8/10
  | Seg.RHip => 8/10
  | Seg.LKnee => 9/10
  | Seg.RKnee => 9/10

/-- Reading one rotation channel of an HPR triple. -/
def axisGet (axis : String) (hpr : ℝ × ℝ × ℝ) : ℝ :=
  if axis = "H" then hpr.1 else if axis = "P" then hpr.2.1 else hpr.2.2

/-- Each field of a successful `readPts` is the corresponding
`safe_pt` result. -/
theorem readPts_spec {kps : List Kp} {P : Pts} (h : readPts kps = some P) :
    safe_pt kps LSHO KP_THRES = some P.p_ls ∧
    safe_pt kps RSHO KP_THRES = some P.p_rs ∧
    safe_pt kps LELB KP_THRES = some P.p_le ∧
    safe_pt kps RELB KP_THRES = some P.p_re ∧
    safe_pt kps LWR KP_THRES = some P.p_lw ∧
    safe_pt kps RWR KP_THRES = some P.p_rw ∧
    safe_pt kps LHIP KP_THRES = some P.p_lh ∧
    safe_pt kps RHIP KP_THRES = some P.p_rh ∧
    safe_pt kps LKNE KP_THRES = some P.p_lk ∧
    safe_pt kps RKNE KP_THRES = some P.p_rk ∧
    safe_pt kps LANK KP_THRES = some P.p_la ∧
    safe_pt kps RANK KP_THRES = some P.p_ra := by
  unfold readPts at h
  split at h
  · rename_i e1 e2 e3 e4 e5 e6 e7 e8 e9 e10 e11 e12
    injection h with h2
    subst h2
    exact ⟨e1, e2, e3, e4, e5, e6, e7, e8, e9, e10, e11, e12⟩
  · exact absurd h (by simp)

/-- C1: for every pose of 17 keypoints in which both endpoints of a
two-point segment pass the confidence filter, `apply_pose` returns,
and in the returned state the segment's joint (when resolved) carries
`sign * (angle2d(endpoints) * scale) + offset` on its configured axis,
while the angles map records the raw, unscaled `angle2d` value under
the segment's name. -/
theorem claim_C1 (s : Seg) (rig : Rig) (kps : List Kp) (a b : Pt)
    (ax : String) (sg off : ℚ)
    (hlen : kps.length = 17)
    (hctl : rig.controlled (segJoint s) = true)
    (hcfg : AXIS_CFG (segJoint s) = some (ax, sg, off))
    (ha : safe_pt kps (segIA s) KP_THRES = some (some a))
    (hb : safe_pt kps (segIB s) KP_THRES = some (some b)) :
    ∃ rig2 m, apply_pose rig kps = some (rig2, m) ∧
      getA m (segKey s) = some (angle2d a b) ∧
      axisGet ax (rig2.cur (segJoint s))
        = (sg : ℝ) * (angle2d a b * (segScale s : ℝ)) + (off : ℝ) := by
  cases s
  case LUp =>
    simp only [segIA, segIB, segKey, segJoint, segScale] at ha hb hctl hcfg ⊢
    obtain ⟨P, hP⟩ := readPts_isSome kps (by omega)
    obtain ⟨e1, e2, e3, e4, e5, e6, e7, e8, e9, e10, e11, e12⟩ :=
      readPts_spec hP
    have hpa : P.p_ls = some a := by
      rw [ha] at e1
      exact (Option.some.inj e1).symm
    have hpb : P.p_le = some b := by
      rw [hb] at e3
      exact (Option.some.inj e3).symm
    simp only [AXIS_CFG] at hcfg
    injection hcfg with hcfg2
    obtain ⟨hax, hrest⟩ := Prod.mk.inj hcfg2
    obtain ⟨hsg, hoff⟩ := Prod.mk.inj hrest
    subst hax hsg hoff
    refine ⟨(applyCore rig P).1, (applyCore rig P).2, ?_, ?_, ?_⟩
    · rw [apply_pose, hP]
      rfl
    · rw [applyCore_getA_L_upperarm, hpa, hpb]
    · rw [applyCore_cur_LeftArm, hpa, hpb, segStep_some]
      show axisGet "P" ((apply_vec_to_joint FIXED_OVERRIDES rig
        "mixamorig:LeftArm" (some a) (some b) 1).cur "mixamorig:LeftArm") = _
      simp only [apply_vec_to_joint, AXIS_CFG, Option.getD_some]
      rw [cur_set_axis_self hctl]
      simp [axisWrite, axisGet]

  case RUp =>
    simp only [segIA, segIB, segKey, segJoint, segScale] at ha hb hctl hcfg ⊢
    obtain ⟨P, hP⟩ := readPts_isSome kps (by omega)
    obtain ⟨e1, e2, e3, e4, e5, e6, e7, e8, e9, e10, e11, e12⟩ :=
      readPts_spec hP
    have hpa : P.p_rs = some a := by
      rw [ha] at e2
      exact (Option.some.inj e2).symm
    have hpb : P.p_re = some b := by
      rw [hb] at e4
      exact (Option.some.inj e4).symm
    simp only [AXIS_CFG] at hcfg
    injection hcfg with hcfg2
    obtain ⟨hax, hrest⟩ := Prod.mk.inj hcfg2
    obtain ⟨hsg, hoff⟩ := Prod.mk.inj hrest
    subst hax hsg hoff
    refine ⟨(applyCore rig P).1, (applyCore rig P).2, ?_, ?_, ?_⟩
    · rw [apply_pose, hP]
      rfl
    · rw [applyCore_getA_R_upperarm, hpa, hpb]
    · rw [applyCore_cur_RightArm, hpa, hpb, segStep_some]
      show axisGet "P" ((apply_vec_to_joint FIXED_OVERRIDES rig
        "mixamorig:RightArm" (some a) (some b) 1).cur "mixamorig:RightArm") = _
      simp only [apply_vec_to_joint, AXIS_CFG, Option.getD_some]
      rw [cur_set_axis_self hctl]
      simp [axisWrite, axisGet]

  case LHip =>
    simp only [segIA, segIB, segKey, segJoint, segScale] at ha hb hctl hcfg ⊢
    obtain ⟨P, hP⟩ := readPts_isSome kps (by omega)
    obtain ⟨e1, e2, e3, e4, e5, e6, e7, e8, e9, e10, e11, e12⟩ :=
      readPts_spec hP
    have hpa : P.p_lh = some a := by
      rw [ha] at e7
      exact (Option.some.inj e7).symm
    have hpb : P.p_lk = some b := by
      rw [hb] at e9
      exact (Option.some.inj e9).symm
    simp only [AXIS_CFG] at hcfg
    injection hcfg with hcfg2
    obtain ⟨hax, hrest⟩ := Prod.mk.inj hcfg2
    obtain ⟨hsg, hoff⟩ := Prod.mk.inj hrest
    subst hax hsg hoff
    refine ⟨(applyCore rig P).1, (applyCore rig P).2, ?_, ?_, ?_⟩
    · rw [apply_pose, hP]
      rfl
    · rw [applyCore_getA_L_hip, hpa, hpb]
    · rw [applyCore_cur_LeftUpLeg, hpa, hpb, segStep_some]
      show axisGet "R" ((apply_vec_to_joint FIXED_OVERRIDES rig
        "mixamorig:LeftUpLeg" (some a) (some b) (8/10)).cur "mixamorig:LeftUpLeg") = _
      simp only [apply_vec_to_joint, AXIS_CFG, Option.getD_some]
      rw [cur_set_axis_self hctl]
      simp [axisWrite, axisGet]

  case RHip =>
    simp only [segIA, segIB, segKey, segJoint, segScale] at ha hb hctl hcfg ⊢
    obtain ⟨P, hP⟩ := readPts_isSome kps (by omega)
    obtain ⟨e1, e2, e3, e4, e5, e6, e7, e8, e9, e10, e11, e12⟩ :=
      readPts_spec hP
    have hpa : P.p_rh = some a := by
      rw [ha] at e8
      exact (Option.some.inj e8).symm
    have hpb : P.p_rk = some b := by
      rw [hb] at e10
      exact (Option.some.inj e10).symm
    simp only [AXIS_CFG] at hcfg
    injection hcfg with hcfg2
    obtain ⟨hax, hrest⟩ := Prod.mk.inj hcfg2
    obtain ⟨hsg, hoff⟩ := Prod.mk.inj hrest
    subst hax hsg hoff
    refine ⟨(applyCore rig P).1, (applyCore rig P).2, ?_, ?_, ?_⟩
    · rw [apply_pose, hP]
      rfl
    · rw [applyCore_getA_R_hip, hpa, hpb]
    · rw [applyCore_cur_RightUpLeg, hpa, hpb, segStep_some]
      show axisGet "R" ((apply_vec_to_joint FIXED_OVERRIDES rig
        "mixamorig:RightUpLeg" (some a) (some b) (8/10)).cur "mixamorig:RightUpLeg") = _
      simp only [apply_vec_to_joint, AXIS_CFG, Option.getD_some]
      rw [cur_set_axis_self hctl]
      simp [axisWrite, axisGet]

  case LKnee =>
    simp only [segIA, segIB, segKey, segJoint, segScale] at ha hb hctl hcfg ⊢
    obtain ⟨P, hP⟩ := readPts_isSome kps (by omega)
    obtain ⟨e1, e2, e3, e4, e5, e6, e7, e8, e9, e10, e11, e12⟩ :=
      readPts_spec hP
    have hpa : P.p_lk = some a := by
      rw [ha] at e9
      exact (Option.some.inj e9).symm
    have hpb : P.p_la = some b := by
      rw [hb] at e11
      exact (Option.some.inj e11).symm
    simp only [AXIS_CFG] at hcfg
    injection hcfg with hcfg2
    obtain ⟨hax, hrest⟩ := Prod.mk.inj hcfg2
    obtain ⟨hsg, hoff⟩ := Prod.mk.inj hrest
    subst hax hsg hoff
    refine ⟨(applyCore rig P).1, (applyCore rig P).2, ?_, ?_, ?_⟩
    · rw [apply_pose, hP]
      rfl
    · rw [applyCore_getA_L_knee, hpa, hpb]
    · rw [applyCore_cur_LeftLeg, hpa, hpb, segStep_some]
      show axisGet "P" ((apply_vec_to_joint FIXED_OVERRIDES rig
        "mixamorig:LeftLeg" (some a) (some b) (9/10)).cur "mixamorig:LeftLeg") = _
      simp only [apply_vec_to_joint, AXIS_CFG, Option.getD_some]
      rw [cur_set_axis_self hctl]
      simp [axisWrite, axisGet]

  case RKnee =>
    simp only [segIA, segIB, segKey, segJoint, segScale] at ha hb hctl hcfg ⊢
    obtain ⟨P, hP⟩ := readPts_isSome kps (by omega)
    obtain ⟨e1, e2, e3, e4, e5, e6, e7, e8, e9, e10, e11, e12⟩ :=
      readPts_spec hP
    have hpa : P.p_rk = some a := by
      rw [ha] at e10
      exact (Option.some.inj e10).symm
    have hpb : P.p_ra = some b := by
      rw [hb] at e12
      exact (Option.some.inj e12).symm
    simp only [AXIS_CFG] at hcfg
    injection hcfg with hcfg2
    obtain ⟨hax, hrest⟩ := Prod.mk.inj hcfg2
    obtain ⟨hsg, hoff⟩ := Prod.mk.inj hrest
    subst hax hsg hoff
    refine ⟨(applyCore rig P).1, (applyCore rig P).2, ?_, ?_, ?_⟩
    · rw [apply_pose, hP]
      rfl
    · rw [applyCore_getA_R_knee, hpa, hpb]
    · rw [applyCore_cur_RightLeg, hpa, hpb, segStep_some]
      show axisGet "P" ((apply_vec_to_joint FIXED_OVERRIDES rig
        "mixamorig:RightLeg" (some a) (some b) (9/10)).cur "mixamorig:RightLeg") = _
      simp only [apply_vec_to_joint, AXIS_CFG, Option.getD_some]
      rw [cur_set_axis_self hctl]
      simp [axisWrite, axisGet]

/-! ## Concrete test fixtures -/

/-- A rig in which every joint resolved, with bind pose and current
rotation `(0,0,0)` everywhere. -/
def testRig : Rig :=
  { controlled := fun _ => true
    base := fun _ => (0, 0, 0)
    cur := fun _ => (0, 0, 0) }

/-- The spec's test pose: left shoulder `(0,0)` conf 1 (index 5), left
elbow `(1,0)` conf 1 (index 7), left wrist `(1,1)` conf 1 (index 9),
all other keypoints at confidence 0. -/
def testKps : List Kp :=
  [(0, 0, 0), (0, 0, 0), (0, 0, 0), (0, 0, 0), (0, 0, 0),
   (0, 0, 1), (0, 0, 0), (1, 0, 1), (0, 0, 0), (1, 1, 1),
   (0, 0, 0), (0, 0, 0), (0, 0, 0), (0, 0, 0), (0, 0, 0),
   (0, 0, 0), (0, 0, 0)]

/-- C1 witness: the left upper-arm segment on the test pose. -/
theorem claim_C1_witness :
    ∃ rig2 m, apply_pose testRig testKps = some (rig2, m) ∧
      getA m (segKey Seg.LUp) = some (angle2d (0, 0) (1, 0)) ∧
      axisGet "P" (rig2.cur (segJoint Seg.LUp))
        = ((-1 : ℚ) : ℝ) * (angle2d (0, 0) (1, 0) * (segScale Seg.LUp : ℝ))
          + ((0 : ℚ) : ℝ) :=
  claim_C1 Seg.LUp testRig testKps (0, 0) (1, 0) "P" (-1) 0
    (by norm_num [testKps]) rfl rfl
    (by norm_num [safe_pt, testKps, KP_THRES, segIA, LSHO])
    (by norm_num [safe_pt, testKps, KP_THRES, segIB, LELB])


/-! ## The two elbow branches of `apply_pose` (claim statements) -/

/-- The two relative-elbow branches of `apply_pose`. -/
inductive ElbSide
  | L
  | R

/-- The angles-map key recorded by each elbow branch. -/
def elbKey : ElbSide → String
  | ElbSide.L => "L_elbow_rel"
  | ElbSide.R => "R_elbow_rel"

/-- Shoulder index used by each elbow branch. -/
def elbIS : ElbSide → ℕ
  | ElbSide.L => LSHO
  | ElbSide.R => RSHO

/-- Elbow index used by each elbow branch. -/
def elbIE : ElbSide → ℕ
  | ElbSide.L => LELB
  | ElbSide.R => RELB

/-- Wrist index used by each elbow branch. -/
def elbIW : ElbSide → ℕ
  | ElbSide.L => LWR
  | ElbSide.R => RWR

/-- Forearm joint driven by each elbow branch. -/
def elbJoint : ElbSide → String
  | ElbSide.L => "mixamorig:LeftForeArm"
  | ElbSide.R => "mixamorig:RightForeArm"

/-- The `readPts` result on the test pose: only left shoulder, elbow
and wrist pass the filter. -/
def testPts : Pts :=
  ⟨some (0, 0), none, some (1, 0), none, some (1, 1), none,
    none, none, none, none, none, none⟩

theorem readPts_testKps : readPts testKps = some testPts := by
  norm_num [readPts, safe_pt, testKps, KP_THRES, testPts,
    LSHO, RSHO, LELB, RELB, LWR, RWR, LHIP, RHIP, LKNE, RKNE, LANK, RANK]

/-- C2: for every pose of 17 keypoints in which shoulder, elbow and
wrist of one arm all pass the filter, `apply_pose` computes the
relative elbow angle `ang_diff(angle2d(elbow, wrist),
angle2d(shoulder, elbow))`, applies `sign * relative + offset` on the
forearm joint's configured axis, and records the relative angle under
the corresponding `*_elbow_rel` key; and on the spec's concrete left
arm pose (threshold 0.25), `L_upperarm` is 0 and `L_elbow_rel` equals
the independently computed expression exactly. -/
theorem claim_C2 :
    (∀ (sd : ElbSide) (rig : Rig) (kps : List Kp) (s e w : Pt)
      (ax : String) (sg off : ℚ),
      kps.length = 17 →
      rig.controlled (elbJoint sd) = true →
      AXIS_CFG (elbJoint sd) = some (ax, sg, off) →
      safe_pt kps (elbIS sd) KP_THRES = some (some s) →
      safe_pt kps (elbIE sd) KP_THRES = some (some e) →
      safe_pt kps (elbIW sd) KP_THRES = some (some w) →
      ∃ rig2 m, apply_pose rig kps = some (rig2, m) ∧
        getA m (elbKey sd) = some (ang_diff (angle2d e w) (angle2d s e)) ∧
        axisGet ax (rig2.cur (elbJoint sd))
          = (sg : ℝ) * ang_diff (angle2d e w) (angle2d s e) + (off : ℝ)) ∧
    (∃ rig2 m, apply_pose testRig testKps = some (rig2, m) ∧
      getA m "L_upperarm" = some 0 ∧
      getA m "L_elbow_rel"
        = some (ang_diff (angle2d (1, 0) (1, 1)) (angle2d (0, 0) (1, 0)))) := by
  constructor
  · intro sd rig kps s e w ax sg off hlen hctl hcfg hs he hw
    cases sd
    case L =>
      simp only [elbIS, elbIE, elbIW, elbKey, elbJoint] at hs he hw hctl hcfg ⊢
      obtain ⟨P, hP⟩ := readPts_isSome kps (by omega)
      obtain ⟨e1, e2, e3, e4, e5, e6, e7, e8, e9, e10, e11, e12⟩ :=
        readPts_spec hP
      have hps : P.p_ls = some s := by
        rw [hs] at e1
        exact (Option.some.inj e1).symm
      have hpe : P.p_le = some e := by
        rw [he] at e3
        exact (Option.some.inj e3).symm
      have hpw : P.p_lw = some w := by
        rw [hw] at e5
        exact (Option.some.inj e5).symm
      simp only [AXIS_CFG] at hcfg
      injection hcfg with hcfg2
      obtain ⟨hax, hrest⟩ := Prod.mk.inj hcfg2
      obtain ⟨hsg, hoff⟩ := Prod.mk.inj hrest
      subst hax hsg hoff
      refine ⟨(applyCore rig P).1, (applyCore rig P).2, ?_, ?_, ?_⟩
      · rw [apply_pose, hP]
        rfl
      · rw [applyCore_getA_L_elbow, hps, hpe, hpw]
      · rw [applyCore_cur_LeftForeArm, hps, hpe, hpw, elbStep_some]
        show axisGet "P" ((set_axis_angle FIXED_OVERRIDES rig
          "mixamorig:LeftForeArm" ((AXIS_CFG "mixamorig:LeftForeArm").getD ("P", 1, 0)).1
          ((((AXIS_CFG "mixamorig:LeftForeArm").getD ("P", 1, 0)).2.1 : ℝ) *
              ang_diff (angle2d e w) (angle2d s e) +
            (((AXIS_CFG "mixamorig:LeftForeArm").getD ("P", 1, 0)).2.2 : ℝ))).cur
          "mixamorig:LeftForeArm") = _
        simp only [AXIS_CFG, Option.getD_some]
        rw [cur_set_axis_self hctl]
        simp [axisWrite, axisGet]

    case R =>
      simp only [elbIS, elbIE, elbIW, elbKey, elbJoint] at hs he hw hctl hcfg ⊢
      obtain ⟨P, hP⟩ := readPts_isSome kps (by omega)
      obtain ⟨e1, e2, e3, e4, e5, e6, e7, e8, e9, e10, e11, e12⟩ :=
        readPts_spec hP
      have hps : P.p_rs = some s := by
        rw [hs] at e2
        exact (Option.some.inj e2).symm
      have hpe : P.p_re = some e := by
        rw [he] at e4
        exact (Option.some.inj e4).symm
      have hpw : P.p_rw = some w := by
        rw [hw] at e6
        exact (Option.some.inj e6).symm
      simp only [AXIS_CFG] at hcfg
      injection hcfg with hcfg2
      obtain ⟨hax, hrest⟩ := Prod.mk.inj hcfg2
      obtain ⟨hsg, hoff⟩ := Prod.mk.inj hrest
      subst hax hsg hoff
      refine ⟨(applyCore rig P).1, (applyCore rig P).2, ?_, ?_, ?_⟩
      · rw [apply_pose, hP]
        rfl
      · rw [applyCore_getA_R_elbow, hps, hpe, hpw]
      · rw [applyCore_cur_RightForeArm, hps, hpe, hpw, elbStep_some]
        show axisGet "P" ((set_axis_angle FIXED_OVERRIDES rig
          "mixamorig:RightForeArm" ((AXIS_CFG "mixamorig:RightForeArm").getD ("P", 1, 0)).1
          ((((AXIS_CFG "mixamorig:RightForeArm").getD ("P", 1, 0)).2.1 : ℝ) *
              ang_diff (angle2d e w) (angle2d s e) +
            (((AXIS_CFG "mixamorig:RightForeArm").getD ("P", 1, 0)).2.2 : ℝ))).cur
          "mixamorig:RightForeArm") = _
        simp only [AXIS_CFG, Option.getD_some]
        rw [cur_set_axis_self hctl]
        simp [axisWrite, axisGet]
  · refine ⟨(applyCore testRig testPts).1, (applyCore testRig testPts).2,
      ?_, ?_, ?_⟩
    · rw [apply_pose, readPts_testKps]
      rfl
    · rw [applyCore_getA_L_upperarm]
      show some (angle2d (0, 0) (1, 0)) = some 0
      rw [angle2d_right]
    · rw [applyCore_getA_L_elbow]
      simp [testPts]

/-- C2 witness: the left elbow branch on the test pose. -/
theorem claim_C2_witness :
    ∃ rig2 m, apply_pose testRig testKps = some (rig2, m) ∧
      getA m (elbKey ElbSide.L)
        = some (ang_diff (angle2d (1, 0) (1, 1)) (angle2d (0, 0) (1, 0))) ∧
      axisGet "P" (rig2.cur (elbJoint ElbSide.L))
        = ((-1 : ℚ) : ℝ) * ang_diff (angle2d (1, 0) (1, 1))
            (angle2d (0, 0) (1, 0)) + ((0 : ℚ) : ℝ) :=
  claim_C2.1 ElbSide.L testRig testKps (0, 0) (1, 0) (1, 1) "P" (-1) 0
    (by norm_num [testKps]) rfl rfl
    (by norm_num [safe_pt, testKps, KP_THRES, elbIS, LSHO])
    (by norm_num [safe_pt, testKps, KP_THRES, elbIE, LELB])
    (by norm_num [safe_pt, testKps, KP_THRES, elbIW, LWR])


/-- C3: on a 17-keypoint pose, whenever one of the three points of an
elbow computation fails the filter, the `*_elbow_rel` key is absent
from the returned angles map and the forearm joint's rotation is left
exactly as it was before the call; likewise for any two-point segment
with an unavailable endpoint. -/
theorem claim_C3 :
    (∀ (sd : ElbSide) (rig : Rig) (kps : List Kp),
      kps.length = 17 →
      (safe_pt kps (elbIS sd) KP_THRES = some none ∨
        safe_pt kps (elbIE sd) KP_THRES = some none ∨
        safe_pt kps (elbIW sd) KP_THRES = some none) →
      ∃ rig2 m, apply_pose rig kps = some (rig2, m) ∧
        getA m (elbKey sd) = none ∧
        rig2.cur (elbJoint sd) = rig.cur (elbJoint sd)) ∧
    (∀ (s : Seg) (rig : Rig) (kps : List Kp),
      kps.length = 17 →
      (safe_pt kps (segIA s) KP_THRES = some none ∨
        safe_pt kps (segIB s) KP_THRES = some none) →
      ∃ rig2 m, apply_pose rig kps = some (rig2, m) ∧
        getA m (segKey s) = none ∧
        rig2.cur (segJoint s) = rig.cur (segJoint s)) := by
  constructor
  · intro sd rig kps hlen hmiss
    cases sd
    case L =>
      simp only [elbIS, elbIE, elbIW, elbKey, elbJoint] at hmiss ⊢
      obtain ⟨P, hP⟩ := readPts_isSome kps (by omega)
      obtain ⟨e1, e2, e3, e4, e5, e6, e7, e8, e9, e10, e11, e12⟩ :=
        readPts_spec hP
      refine ⟨(applyCore rig P).1, (applyCore rig P).2, ?_, ?_, ?_⟩
      · rw [apply_pose, hP]
        rfl
      · rw [applyCore_getA_L_elbow]
        rcases hmiss with hm | hm | hm
        · have h1 : P.p_ls = none := by
            rw [hm] at e1
            exact (Option.some.inj e1).symm
          rw [h1]
        · have h1 : P.p_le = none := by
            rw [hm] at e3
            exact (Option.some.inj e3).symm
          rw [h1]
          rcases P.p_ls with _ | sv <;> rcases P.p_lw with _ | wv <;> rfl
        · have h1 : P.p_lw = none := by
            rw [hm] at e5
            exact (Option.some.inj e5).symm
          rw [h1]
          rcases P.p_ls with _ | sv <;> rcases P.p_le with _ | ev <;> rfl
      · rw [applyCore_cur_LeftForeArm]
        rcases hmiss with hm | hm | hm
        · have h1 : P.p_ls = none := by
            rw [hm] at e1
            exact (Option.some.inj e1).symm
          rw [h1, elbStep_none_s]
        · have h1 : P.p_le = none := by
            rw [hm] at e3
            exact (Option.some.inj e3).symm
          rw [h1, elbStep_none_e]
        · have h1 : P.p_lw = none := by
            rw [hm] at e5
            exact (Option.some.inj e5).symm
          rw [h1, elbStep_none_w]

    case R =>
      simp only [elbIS, elbIE, elbIW, elbKey, elbJoint] at hmiss ⊢
      obtain ⟨P, hP⟩ := readPts_isSome kps (by omega)
      obtain ⟨e1, e2, e3, e4, e5, e6, e7, e8, e9, e10, e11, e12⟩ :=
        readPts_spec hP
      refine ⟨(applyCore rig P).1, (applyCore rig P).2, ?_, ?_, ?_⟩
      · rw [apply_pose, hP]
        rfl
      · rw [applyCore_getA_R_elbow]
        rcases hmiss with hm | hm | hm
        · have h1 : P.p_rs = none := by
            rw [hm] at e2
            exact (Option.some.inj e2).symm
          rw [h1]
        · have h1 : P.p_re = none := by
            rw [hm] at e4
            exact (Option.some.inj e4).symm
          rw [h1]
          rcases P.p_rs with _ | sv <;> rcases P.p_rw with _ | wv <;> rfl
        · have h1 : P.p_rw = none := by
            rw [hm] at e6
            exact (Option.some.inj e6).symm
          rw [h1]
          rcases P.p_rs with _ | sv <;> rcases P.p_re with _ | ev <;> rfl
      · rw [applyCore_cur_RightForeArm]
        rcases hmiss with hm | hm | hm
        · have h1 : P.p_rs = none := by
            rw [hm] at e2
            exact (Option.some.inj e2).symm
          rw [h1, elbStep_none_s]
        · have h1 : P.p_re = none := by
            rw [hm] at e4
            exact (Option.some.inj e4).symm
          rw [h1, elbStep_none_e]
        · have h1 : P.p_rw = none := by
            rw [hm] at e6
            exact (Option.some.inj e6).symm
          rw [h1, elbStep_none_w]
  · intro s rig kps hlen hmiss
    cases s
    case LUp =>
      simp only [segIA, segIB, segKey, segJoint] at hmiss ⊢
      obtain ⟨P, hP⟩ := readPts_isSome kps (by omega)
      obtain ⟨e1, e2, e3, e4, e5, e6, e7, e8, e9, e10, e11, e12⟩ :=
        readPts_spec hP
      refine ⟨(applyCore rig P).1, (applyCore rig P).2, ?_, ?_, ?_⟩
      · rw [apply_pose, hP]
        rfl
      · rw [applyCore_getA_L_upperarm]
        rcases hmiss with hm | hm
        · have h1 : P.p_ls = none := by
            rw [hm] at e1
            exact (Option.some.inj e1).symm
          rw [h1]
        · have h1 : P.p_le = none := by
            rw [hm] at e3
            exact (Option.some.inj e3).symm
          rw [h1]
          rcases P.p_ls with _ | av <;> rfl
      · rw [applyCore_cur_LeftArm]
        rcases hmiss with hm | hm
        · have h1 : P.p_ls = none := by
            rw [hm] at e1
            exact (Option.some.inj e1).symm
          rw [h1, segStep_none_left]
        · have h1 : P.p_le = none := by
            rw [hm] at e3
            exact (Option.some.inj e3).symm
          rw [h1, segStep_none_right]

    case RUp =>
      simp only [segIA, segIB, segKey, segJoint] at hmiss ⊢
      obtain ⟨P, hP⟩ := readPts_isSome kps (by omega)
      obtain ⟨e1, e2, e3, e4, e5, e6, e7, e8, e9, e10, e11, e12⟩ :=
        readPts_spec hP
      refine ⟨(applyCore rig P).1, (applyCore rig P).2, ?_, ?_, ?_⟩
      · rw [apply_pose, hP]
        rfl
      · rw [applyCore_getA_R_upperarm]
        rcases hmiss with hm | hm
        · have h1 : P.p_rs = none := by
            rw [hm] at e2
            exact (Option.some.inj e2).symm
          rw [h1]
        · have h1 : P.p_re = none := by
            rw [hm] at e4
            exact (Option.some.inj e4).symm
          rw [h1]
          rcases P.p_rs with _ | av <;> rfl
      · rw [applyCore_cur_RightArm]
        rcases hmiss with hm | hm
        · have h1 : P.p_rs = none := by
            rw [hm] at e2
            exact (Option.some.inj e2).symm
          rw [h1, segStep_none_left]
        · have h1 : P.p_re = none := by
            rw [hm] at e4
            exact (Option.some.inj e4).symm
          rw [h1, segStep_none_right]

    case LHip =>
      simp only [segIA, segIB, segKey, segJoint] at hmiss ⊢
      obtain ⟨P, hP⟩ := readPts_isSome kps (by omega)
      obtain ⟨e1, e2, e3, e4, e5, e6, e7, e8, e9, e10, e11, e12⟩ :=
        readPts_spec hP
      refine ⟨(applyCore rig P).1, (applyCore rig P).2, ?_, ?_, ?_⟩
      · rw [apply_pose, hP]
        rfl
      · rw [applyCore_getA_L_hip]
        rcases hmiss with hm | hm
        · have h1 : P.p_lh = none := by
            rw [hm] at e7
            exact (Option.some.inj e7).symm
          rw [h1]
        · have h1 : P.p_lk = none := by
            rw [hm] at e9
            exact (Option.some.inj e9).symm
          rw [h1]
          rcases P.p_lh with _ | av <;> rfl
      · rw [applyCore_cur_LeftUpLeg]
        rcases hmiss with hm | hm
        · have h1 : P.p_lh = none := by
            rw [hm] at e7
            exact (Option.some.inj e7).symm
          rw [h1, segStep_none_left]
        · have h1 : P.p_lk = none := by
            rw [hm] at e9
            exact (Option.some.inj e9).symm
          rw [h1, segStep_none_right]

    case RHip =>
      simp only [segIA, segIB, segKey, segJoint] at hmiss ⊢
      obtain ⟨P, hP⟩ := readPts_isSome kps (by omega)
      obtain ⟨e1, e2, e3, e4, e5, e6, e7, e8, e9, e10, e11, e12⟩ :=
        readPts_spec hP
      refine ⟨(applyCore rig P).1, (applyCore rig P).2, ?_, ?_, ?_⟩
      · rw [apply_pose, hP]
        rfl
      · rw [applyCore_getA_R_hip]
        rcases hmiss with hm | hm
        · have h1 : P.p_rh = none := by
            rw [hm] at e8
            exact (Option.some.inj e8).symm
          rw [h1]
        · have h1 : P.p_rk = none := by
            rw [hm] at e10
            exact (Option.some.inj e10).symm
          rw [h1]
          rcases P.p_rh with _ | av <;> rfl
      · rw [applyCore_cur_RightUpLeg]
        rcases hmiss with hm | hm
        · have h1 : P.p_rh = none := by
            rw [hm] at e8
            exact (Option.some.inj e8).symm
          rw [h1, segStep_none_left]
        · have h1 : P.p_rk = none := by
            rw [hm] at e10
            exact (Option.some.inj e10).symm
          rw [h1, segStep_none_right]

    case LKnee =>
      simp only [segIA, segIB, segKey, segJoint] at hmiss ⊢
      obtain ⟨P, hP⟩ := readPts_isSome kps (by omega)
      obtain ⟨e1, e2, e3, e4, e5, e6, e7, e8, e9, e10, e11, e12⟩ :=
        readPts_spec hP
      refine ⟨(applyCore rig P).1, (applyCore rig P).2, ?_, ?_, ?_⟩
      · rw [apply_pose, hP]
        rfl
      · rw [applyCore_getA_L_knee]
        rcases hmiss with hm | hm
        · have h1 : P.p_lk = none := by
            rw [hm] at e9
            exact (Option.some.inj e9).symm
          rw [h1]
        · have h1 : P.p_la = none := by
            rw [hm] at e11
            exact (Option.some.inj e11).symm
          rw [h1]
          rcases P.p_lk with _ | av <;> rfl
      · rw [applyCore_cur_LeftLeg]
        rcases hmiss with hm | hm
        · have h1 : P.p_lk = none := by
            rw [hm] at e9
            exact (Option.some.inj e9).symm
          rw [h1, segStep_none_left]
        · have h1 : P.p_la = none := by
            rw [hm] at e11
            exact (Option.some.inj e11).symm
          rw [h1, segStep_none_right]

    case RKnee =>
      simp only [segIA, segIB, segKey, segJoint] at hmiss ⊢
      obtain ⟨P, hP⟩ := readPts_isSome kps (by omega)
      obtain ⟨e1, e2, e3, e4, e5, e6, e7, e8, e9, e10, e11, e12⟩ :=
        readPts_spec hP
      refine ⟨(applyCore rig P).1, (applyCore rig P).2, ?_, ?_, ?_⟩
      · rw [apply_pose, hP]
        rfl
      · rw [applyCore_getA_R_knee]
        rcases hmiss with hm | hm
        · have h1 : P.p_rk = none := by
            rw [hm] at e10
            exact (Option.some.inj e10).symm
          rw [h1]
        · have h1 : P.p_ra = none := by
            rw [hm] at e12
            exact (Option.some.inj e12).symm
          rw [h1]
          rcases P.p_rk with _ | av <;> rfl
      · rw [applyCore_cur_RightLeg]
        rcases hmiss with hm | hm
        · have h1 : P.p_rk = none := by
            rw [hm] at e10
            exact (Option.some.inj e10).symm
          rw [h1, segStep_none_left]
        · have h1 : P.p_ra = none := by
            rw [hm] at e12
            exact (Option.some.inj e12).symm
          rw [h1, segStep_none_right]

/-- C3 witness: on the test pose the right shoulder has confidence 0,
so `R_elbow_rel` is absent and the right forearm joint keeps its prior
rotation. -/
theorem claim_C3_witness :
    ∃ rig2 m, apply_pose testRig testKps = some (rig2, m) ∧
      getA m (elbKey ElbSide.R) = none ∧
      rig2.cur (elbJoint ElbSide.R) = testRig.cur (elbJoint ElbSide.R) :=
  claim_C3.1 ElbSide.R testRig testKps (by norm_num [testKps])
    (Or.inl (by norm_num [safe_pt, testKps, KP_THRES, elbIS, RSHO]))

/-! ## Fixed overrides and the driven axis (C8) -/

/-- An override table pinning channel P of joint `"J"` to 42. -/
def ovP : Overrides := fun j =>
  if j = "J" then (none, some 42, none) else (none, none, none)

/-- C8 (counterexample): with channel P of joint `"J"` pinned to 42,
a joint-rotation write driving axis P with computed angle 7 leaves 7 —
not the override constant — on that channel: overrides do not take
precedence on the driven axis. -/
theorem claim_C8_counterexample :
    axisGet "P" ((set_axis_angle ovP testRig "J" "P" 7).cur "J") = 7 ∧
      (7 : ℝ) ≠ 42 := by
  constructor
  · rw [cur_set_axis_self rfl]
    simp [axisWrite, axisGet]
  · norm_num

/-- C8 (amended): a fixed override pins a rotation channel to its
constant whenever that channel is not the driven axis; the driven axis
always receives the computed angle, even when it has an override
entry. -/
theorem claim_C8 (ov : Overrides) (rig : Rig) (j axis : String) (v : ℝ)
    (hctl : rig.controlled j = true)
    (hax : axis = "H" ∨ axis = "P" ∨ axis = "R") :
    axisGet axis ((set_axis_angle ov rig j axis v).cur j) = v ∧
      (∀ c, axis ≠ "H" → (ov j).1 = some c →
        axisGet "H" ((set_axis_angle ov rig j axis v).cur j) = c) ∧
      (∀ c, axis ≠ "P" → (ov j).2.1 = some c →
        axisGet "P" ((set_axis_angle ov rig j axis v).cur j) = c) ∧
      (∀ c, axis ≠ "R" → (ov j).2.2 = some c →
        axisGet "R" ((set_axis_angle ov rig j axis v).cur j) = c) := by
  rw [cur_set_axis_self hctl]
  rcases hax with h | h | h <;> subst h
  · refine ⟨by simp [axisWrite, axisGet], ?_, ?_, ?_⟩
    · intro c hne _
      exact absurd rfl hne
    · intro c _ hc
      simp [axisWrite, axisGet, fixed_hpr, hc]
    · intro c _ hc
      simp [axisWrite, axisGet, fixed_hpr, hc]
  · refine ⟨by simp [axisWrite, axisGet], ?_, ?_, ?_⟩
    · intro c _ hc
      simp [axisWrite, axisGet, fixed_hpr, hc]
    · intro c hne _
      exact absurd rfl hne
    · intro c _ hc
      simp [axisWrite, axisGet, fixed_hpr, hc]
  · refine ⟨by simp [axisWrite, axisGet], ?_, ?_, ?_⟩
    · intro c _ hc
      simp [axisWrite, axisGet, fixed_hpr, hc]
    · intro c _ hc
      simp [axisWrite, axisGet, fixed_hpr, hc]
    · intro c hne _
      exact absurd rfl hne

/-- C8 witness: the amended statement at the concrete override table
`ovP`, joint `"J"`, driven axis P, angle 7. -/
theorem claim_C8_witness :
    axisGet "P" ((set_axis_angle ovP testRig "J" "P" 7).cur "J") = 7 ∧
      (∀ c, "P" ≠ "H" → (ovP "J").1 = some c →
        axisGet "H" ((set_axis_angle ovP testRig "J" "P" 7).cur "J") = c) ∧
      (∀ c, "P" ≠ "P" → (ovP "J").2.1 = some c →
        axisGet "P" ((set_axis_angle ovP testRig "J" "P" 7).cur "J") = c) ∧
      (∀ c, "P" ≠ "R" → (ovP "J").2.2 = some c →
        axisGet "R" ((set_axis_angle ovP testRig "J" "P" 7).cur "J") = c) :=
  claim_C8 ovP testRig "J" "P" 7 rfl (Or.inr (Or.inl rfl))

end PoseRig
